import Mathlib

/-!
# Verification of the fixdecoder schema-resolution and validation engine

A shallow embedding, in Lean 4, of the core of the `fixdecoder` Go
repository: the tag parser (`decoder/fixparser.go`), the message validator
(`decoder/display.go`), and the dictionary loader / version detector /
cache (`decoder/fixtaglookup.go`).

Modelling conventions:
* Go strings are modelled as `List Char`; the messages handled by the
  program are ASCII, so `Char.toNat` coincides with the raw byte value
  used by the checksum.
* Go maps are modelled as association lists built exclusively with
  `assocUpd` (assignment, overwriting) and read with `assocFind`
  (first match).  Go map iteration order is unspecified; wherever the
  source iterates a map we iterate the association list in order and the
  theorems below only depend on the induced lookup function, which is
  iteration-order independent for the add-if-absent loops concerned.
* Go machine integers (`int`) are modelled as `Int` with the 64-bit
  range check made explicit where `strconv` performs it.
* Pointer identity and in-place mutation (the dictionary cache) are
  modelled with an explicit heap: addresses are `Nat`, the cache maps a
  version key to an address, and mutation replaces the heap cell.
-/

namespace Fixdecoder

/-- Lookup in an association list: the value paired with the first
occurrence of the key (Go map read, for lists whose keys are unique). -/
def assocFind {α β : Type} [DecidableEq α] (k : α) : List (α × β) → Option β
  | [] => none
  | (k', v) :: rest => if k' = k then some v else assocFind k rest

/-- Assignment into an association-list map (Go `m[k] = v`): replaces the
binding of `k` if present, otherwise appends it. -/
def assocUpd {α β : Type} [DecidableEq α] (k : α) (v : β) : List (α × β) → List (α × β)
  | [] => [(k, v)]
  | (k', v') :: rest => if k' = k then (k, v) :: rest else (k', v') :: assocUpd k v rest

theorem assocFind_assocUpd {α β : Type} [DecidableEq α] (k k' : α) (v : β)
    (m : List (α × β)) :
    assocFind k (assocUpd k' v m) = if k' = k then some v else assocFind k m := by
  induction m with
  | nil => simp [assocFind, assocUpd]
  | cons hd tl ih =>
    obtain ⟨a, b⟩ := hd
    by_cases hak : a = k' <;> by_cases hkk : k' = k <;>
      simp [assocFind, assocUpd, hak, hkk, ih] <;> subst_vars <;> simp_all [assocFind]

theorem assocFind_assocUpd_self {α β : Type} [DecidableEq α] (k : α) (v : β)
    (m : List (α × β)) : assocFind k (assocUpd k v m) = some v := by
  simp [assocFind_assocUpd]

theorem assocFind_assocUpd_ne {α β : Type} [DecidableEq α] {k k' : α} (v : β)
    (m : List (α × β)) (h : k' ≠ k) :
    assocFind k (assocUpd k' v m) = assocFind k m := by
  simp [assocFind_assocUpd, h]

/-- The ASCII SOH byte (0x01), the FIX field separator. -/
def SOH : Char := Char.ofNat 1

/-! ## Tag parser (`decoder/fixparser.go`) -/

/-- `type FieldValue struct { Tag int; Value string }` -/
structure FieldValue where
  Tag : Int
  Value : String
deriving DecidableEq, Repr

/-- `strings.Split(msg, sep)` for a single-character separator: splits at
every occurrence of `sep`; `Split("", sep) = [""]`, and a trailing
separator yields a trailing empty segment, exactly as in Go. -/
def splitOnChar (sep : Char) : List Char → List (List Char)
  | [] => [[]]
  | c :: rest =>
    if c = sep then [] :: splitOnChar sep rest
    else
      match splitOnChar sep rest with
      | [] => [[c]]
      | h :: t => (c :: h) :: t

/-- `strings.SplitN(p, "=", 2)` restricted to the case the caller uses:
`some (before, after)` splitting at the first `'='`, `none` if `p`
contains no `'='` (in which case Go returns a 1-element slice and the
caller discards the segment). -/
def splitEq : List Char → Option (List Char × List Char)
  | [] => none
  | c :: rest =>
    if c = '=' then some ([], rest)
    else (splitEq rest).map (fun kv => (c :: kv.1, kv.2))

/-- `strconv.Atoi` (= `ParseInt(s, 10, 64)` on a 64-bit platform): an
optional single sign followed by one or more decimal digits, with the
result required to fit in a signed 64-bit integer; `none` models a
non-nil error. -/
def goAtoi (s : List Char) : Option Int :=
  match s with
  | [] => none
  | c :: rest =>
    let (neg, ds) :=
      if c = '-' then (true, rest)
      else if c = '+' then (false, rest)
      else (false, c :: rest)
    if ds = [] then none
    else if ds.all Char.isDigit then
      let n : Nat := ds.foldl (fun a d => a * 10 + (d.toNat - '0'.toNat)) 0
      let v : Int := if neg then -(n : Int) else (n : Int)
      if -(2 ^ 63) ≤ v ∧ v ≤ 2 ^ 63 - 1 then some v else none
    else none

/-- One iteration of the `ParseFix` loop body: `continue` on an empty
segment, a segment without `'='`, or a tag token `Atoi` rejects;
otherwise the segment contributes a `FieldValue`. -/
def segParse (p : List Char) : Option FieldValue :=
  if p = [] then none
  else
    match splitEq p with
    | none => none
    | some (k, v) =>
      match goAtoi k with
      | none => none
      | some t => some ⟨t, String.mk v⟩

/-- The `for _, p := range parts` loop of `ParseFix`, appending the
surviving segments in order. -/
def parseParts : List (List Char) → List FieldValue
  | [] => []
  | p :: rest =>
    match segParse p with
    | some fv => fv :: parseParts rest
    | none => parseParts rest

/-- `ParseFix` (`decoder/fixparser.go`): with no SOH delimiter the whole
input is treated as having no fields; otherwise split on SOH and keep the
segments that parse. -/
def ParseFix (msg : List Char) : List FieldValue :=
  if msg.contains SOH then parseParts (splitOnChar SOH msg) else []

/-! ## Dictionary data model (`decoder/fixtaglookup.go`) -/

/-- `type GroupDef struct { NumInGroupTag int; FieldOrder []int }` -/
structure GroupDef where
  NumInGroupTag : Int
  FieldOrder : List Int
deriving DecidableEq, Repr

/-- `type MessageDef struct { Name, MsgType string; FieldOrder, Required []int }` -/
structure MessageDef where
  Name : String
  MsgType : String
  FieldOrder : List Int
  Required : List Int
deriving DecidableEq, Repr

/-- `type FixTagLookup struct { ... }`, each Go map as an association list. -/
structure FixTagLookup where
  tagToName : List (Int × String)
  enumMap : List (Int × List (String × String))
  fieldTypes : List (Int × String)
  groupCounts : List (Int × Bool)
  groupOwners : List (Int × Int)
  groupDefs : List (Int × GroupDef)
  Messages : List (String × MessageDef)
deriving DecidableEq, Repr

/-- `GetFieldName`: the declared name, else `strconv.Itoa(tag)`. -/
def FixTagLookup.GetFieldName (d : FixTagLookup) (tag : Int) : String :=
  (assocFind tag d.tagToName).getD (toString tag)

/-- `GetFieldType`: Go map read with the zero value `""` on a miss. -/
def FixTagLookup.GetFieldType (d : FixTagLookup) (tag : Int) : String :=
  (assocFind tag d.fieldTypes).getD ""

/-- `GetEnumDescription`: empty string for an undeclared tag or value. -/
def FixTagLookup.GetEnumDescription (d : FixTagLookup) (tag : Int) (val : String) : String :=
  match assocFind tag d.enumMap with
  | some m => (assocFind val m).getD ""
  | none => ""

/-! ## Type-syntax rules (`IsValidType`, `decoder/display.go`)

`time.Parse` against the fixed layouts is modelled as the corresponding
digit pattern plus the calendar/clock range checks that `time.Parse`
enforces.  `strconv.ParseFloat` is modelled by the decimal grammar plus
the Inf/NaN specials; the hexadecimal-float and digit-underscore forms it
also accepts are elided — no theorem below depends on this function. -/

/-- Numeric value of a two-ASCII-digit pair. -/
def d2 (a b : Char) : Nat := (a.toNat - 48) * 10 + (b.toNat - 48)

def isLeapYear (y : Nat) : Bool := y % 4 = 0 && (y % 100 ≠ 0 || y % 400 = 0)

def daysInMonth (y m : Nat) : Nat :=
  if m = 2 then (if isLeapYear y then 29 else 28)
  else if m = 4 ∨ m = 6 ∨ m = 9 ∨ m = 11 then 30
  else 31

def validYMD (y m d : Nat) : Bool :=
  1 ≤ m && m ≤ 12 && 1 ≤ d && d ≤ daysInMonth y m

def validHMS (h mi s : Nat) : Bool := h ≤ 23 && mi ≤ 59 && s ≤ 59

/-- `time.Parse("20060102", val)` succeeding. -/
def utcDateOnlyOk (l : List Char) : Bool :=
  match l with
  | [y1, y2, y3, y4, m1, m2, dd1, dd2] =>
    [y1, y2, y3, y4, m1, m2, dd1, dd2].all Char.isDigit &&
      validYMD (d2 y1 y2 * 100 + d2 y3 y4) (d2 m1 m2) (d2 dd1 dd2)
  | _ => false

/-- `time.Parse` against `"15:04"`, `"15:04:05"` or `"15:04:05.000"`. -/
def utcTimeOnlyOk (l : List Char) : Bool :=
  match l with
  | [h1, h2, ':', m1, m2] =>
    [h1, h2, m1, m2].all Char.isDigit && validHMS (d2 h1 h2) (d2 m1 m2) 0
  | [h1, h2, ':', m1, m2, ':', s1, s2] =>
    [h1, h2, m1, m2, s1, s2].all Char.isDigit &&
      validHMS (d2 h1 h2) (d2 m1 m2) (d2 s1 s2)
  | [h1, h2, ':', m1, m2, ':', s1, s2, '.', f1, f2, f3] =>
    [h1, h2, m1, m2, s1, s2, f1, f2, f3].all Char.isDigit &&
      validHMS (d2 h1 h2) (d2 m1 m2) (d2 s1 s2)
  | _ => false

/-- `time.Parse` against `"20060102-15:04:05"` or `"20060102-15:04:05.000"`. -/
def utcTimestampOk (l : List Char) : Bool :=
  match l with
  | y1 :: y2 :: y3 :: y4 :: m1 :: m2 :: dd1 :: dd2 :: '-' :: rest =>
    [y1, y2, y3, y4, m1, m2, dd1, dd2].all Char.isDigit &&
      validYMD (d2 y1 y2 * 100 + d2 y3 y4) (d2 m1 m2) (d2 dd1 dd2) &&
      utcTimeOnlyOk rest &&
      -- the timestamp layouts carry full seconds: the 5-char "15:04" shape
      -- accepted by UTCTIMEONLY is not one of the two timestamp layouts
      (rest.length = 8 || rest.length = 12)
  | _ => false

/-- The `MONTHYEAR` regular expression
`^\d{6}([0-9]{2}|(-[0-9]{1,2})|(-?w[1-5]))?$`. -/
def monthYearOk (l : List Char) : Bool :=
  (l.take 6).length = 6 && (l.take 6).all Char.isDigit &&
    (match l.drop 6 with
     | [] => true
     | [a, b] =>
       (a.isDigit && b.isDigit) ||
       (a = '-' && b.isDigit) ||
       (a = 'w' && ('1' ≤ b && b ≤ '5'))
     | ['-', a, b] =>
       (a.isDigit && b.isDigit) ||
       (a = 'w' && ('1' ≤ b && b ≤ '5'))
     | _ => false)

/-- Decimal mantissa of a Go float literal: digits with at most one dot
and at least one digit overall. -/
def floatMantissaOk (l : List Char) : Bool :=
  let ip := l.takeWhile (fun c => c ≠ '.')
  let rest := l.drop ip.length
  match rest with
  | [] => ip ≠ [] && ip.all Char.isDigit
  | _ :: fp => (ip ≠ [] || fp ≠ []) && ip.all Char.isDigit && fp.all Char.isDigit

/-- Optional exponent part (after the mantissa): empty, or `e`/`E`, an
optional sign, and at least one digit. -/
def floatExpOk (l : List Char) : Bool :=
  match l with
  | [] => true
  | e :: rest =>
    (e = 'e' || e = 'E') &&
      (let ds := match rest with
        | s :: rest' => if s = '+' ∨ s = '-' then rest' else rest
        | [] => []
       ds ≠ [] && ds.all Char.isDigit)

/-- `strconv.ParseFloat(val, 64)` succeeding (decimal and special forms;
see the section comment for the elided hexadecimal/underscore forms). -/
def goParseFloatOk (l : List Char) : Bool :=
  let lower := l.map Char.toLower
  -- special values: optionally signed "inf"/"infinity", unsigned "nan"
  if lower = "nan".data then true
  else
    let body := match l with
      | c :: rest => if c = '+' ∨ c = '-' then rest else l
      | [] => []
    let bl := body.map Char.toLower
    if bl = "inf".data ∨ bl = "infinity".data then true
    else
      let mant := body.takeWhile (fun c => c ≠ 'e' ∧ c ≠ 'E')
      floatMantissaOk mant && floatExpOk (body.drop mant.length)

/-- `IsValidType` (`decoder/display.go`): the switch on the upper-cased
type name.  In Go, `len(val)` is a byte count; the values concerned are
ASCII, where it coincides with the character count. -/
def IsValidType (val : String) (typ : String) : Bool :=
  let t := String.mk (typ.data.map Char.toUpper)
  if t = "INT" ∨ t = "LENGTH" ∨ t = "NUMINGROUP" ∨ t = "SEQNUM" ∨ t = "DAYOFMONTH" then
    (goAtoi val.data).isSome
  else if t = "FLOAT" ∨ t = "QTY" ∨ t = "PRICE" ∨ t = "PRICEOFFSET" ∨ t = "AMT" ∨ t = "PERCENTAGE" then
    goParseFloatOk val.data
  else if t = "BOOLEAN" then val = "Y" || val = "N"
  else if t = "CHAR" then val.length = 1
  else if t = "STRING" ∨ t = "DATA" ∨ t = "CURRENCY" ∨ t = "EXCHANGE" ∨ t = "COUNTRY" ∨
      t = "MULTIPLEVALUESTRING" ∨ t = "MULTIPLESTRINGVALUE" then true
  else if t = "UTCTIMESTAMP" then utcTimestampOk val.data
  else if t = "UTCDATEONLY" then utcDateOnlyOk val.data
  else if t = "UTCTIMEONLY" then utcTimeOnlyOk val.data
  else if t = "MONTHYEAR" then monthYearOk val.data
  else true

/-! ## Validator (`decoder/display.go`) -/

/-- `buildFieldMap`: tag → last value, tag → seen. -/
def buildFieldMap (fields : List FieldValue) :
    List (Int × String) × List (Int × Bool) :=
  fields.foldl
    (fun acc fv => (assocUpd fv.Tag fv.Value acc.1, assocUpd fv.Tag true acc.2))
    ([], [])

/-- `validateMsgType`: resolve the value of tag 35 in the Messages map. -/
def validateMsgType (fieldMap : List (Int × String)) (dict : FixTagLookup) :
    List String × Option MessageDef :=
  match assocFind 35 fieldMap with
  | none => (["Missing required tag 35 (MsgType)"], none)
  | some msgType =>
    match assocFind msgType dict.Messages with
    | none => (["Unknown MsgType: " ++ msgType], none)
    | some msgDef => ([], some msgDef)

/-- `validateRequiredFields`: one finding per required tag not seen. -/
def validateRequiredFields (required : List Int) (seenTags : List (Int × Bool))
    (dict : FixTagLookup) : List String :=
  required.foldl
    (fun errs tag =>
      if (assocFind tag seenTags).getD false then errs
      else errs ++ ["Missing required tag " ++ toString tag ++ " (" ++ dict.GetFieldName tag ++ ")"])
    []

/-- `validateFieldEnumsAndTypes`: per parsed field, an enum finding and an
independent type finding. -/
def validateFieldEnumsAndTypes (fields : List FieldValue) (dict : FixTagLookup) :
    List String :=
  fields.foldl
    (fun errs fv =>
      let errs1 :=
        match assocFind fv.Tag dict.enumMap with
        | some enumMap =>
          match assocFind fv.Value enumMap with
          | some _ => errs
          | none => errs ++ ["Invalid enum value \x27" ++ fv.Value ++ "\x27 for tag " ++ toString fv.Tag]
        | none => errs
      let typ := dict.GetFieldType fv.Tag
      if typ ≠ "" && !(IsValidType fv.Value typ) then
        errs1 ++ ["Invalid type for tag " ++ toString fv.Tag ++ ": expected " ++ typ ++ ", got \x27" ++ fv.Value ++ "\x27"]
      else errs1)
    []

/-- `validateFieldOrdering`: index map from `expectedOrder` (later
positions overwrite), then a walk carrying `lastIdx`, updated
unconditionally on every field whose tag is in the index map. -/
def validateFieldOrdering (fields : List FieldValue) (expectedOrder : List Int) :
    List String :=
  let orderIndex := expectedOrder.enum.foldl (fun m p => assocUpd p.2 (p.1 : Int) m) []
  (fields.foldl
    (fun acc fv =>
      match assocFind fv.Tag orderIndex with
      | some idx =>
        (if idx < acc.2 then acc.1 ++ ["Tag " ++ toString fv.Tag ++ " out of order"] else acc.1,
         idx)
      | none => acc)
    (([] : List String), (-1 : Int))).1

/-- `strings.Index(msg, pat)`: index of the first occurrence, `none` standing for
the Go result `-1`. -/
def findSubstr (pat : List Char) : List Char → Option Nat
  | [] => if pat.isPrefixOf ([] : List Char) then some 0 else none
  | c :: rest =>
    if pat.isPrefixOf (c :: rest) then some 0
    else (findSubstr pat rest).map (· + 1)

/-- Sum of the byte values of a string (ASCII: `Char.toNat` is the byte). -/
def sumBytes (l : List Char) : Nat := l.foldl (fun a c => a + c.toNat) 0

/-- `CalculateChecksum`: `-1` if `"\x0110="` never occurs, else the byte
sum of the prefix up to and including that SOH, modulo 256. -/
def CalculateChecksum (msg : List Char) : Int :=
  match findSubstr [SOH, '1', '0', '='] msg with
  | none => -1
  | some cutoff => (sumBytes (msg.take (cutoff + 1)) : Int) % 256

/-- Left-pad with `'0'` to the given width. -/
def padZeros (w : Nat) (s : String) : String :=
  if w ≤ s.length then s else String.mk (List.replicate (w - s.length) '0') ++ s

/-- `fmt.Sprintf("%03d", n)`: total width 3 including the sign, padding
the magnitude with zeros. -/
def goFmt03d (n : Int) : String :=
  if n < 0 then "-" ++ padZeros 2 (toString n.natAbs)
  else padZeros 3 (toString n.natAbs)

/-- `validateChecksumField`: missing tag 10, or compare the supplied value
with the recomputed zero-padded checksum. -/
def validateChecksumField (msg : List Char) (fieldMap : List (Int × String)) :
    List String :=
  match assocFind 10 fieldMap with
  | none => ["Missing required checksum tag 10"]
  | some checkVal =>
    let expected := goFmt03d (CalculateChecksum msg)
    if checkVal = expected then []
    else ["Checksum mismatch: got " ++ checkVal ++ ", expected " ++ expected]

/-- `ValidateFixMessage`: parse, resolve the message type (aborting when
it cannot be resolved), then the four follow-up passes in order. -/
def ValidateFixMessage (msg : List Char) (dict : FixTagLookup) : List String :=
  let fields := ParseFix msg
  let fm := buildFieldMap fields
  match validateMsgType fm.1 dict with
  | (errs, none) => errs
  | (errs, some msgDef) =>
    errs ++ validateRequiredFields msgDef.Required fm.2 dict
         ++ validateFieldEnumsAndTypes fields dict
         ++ validateFieldOrdering fields msgDef.FieldOrder
         ++ validateChecksumField msg fm.1

/-! ## Dictionary loader (`decoder/fixtaglookup.go`)

The XML decoding performed by `encoding/xml` into the `rawFix` struct is
taken as given: the loader is embedded from the decoded `rawFix` value
onward (`parseFields`, `parseMessages`, `parseGroups`), which is where
all the cited logic lives. -/

/-- One `<field>` element of the decoded `rawFix`: name, numeric tag,
type, direct `<value>` children and `<values><value/></values>` wrapper
children, each an (enum, description) pair. -/
structure RawField where
  Name : String
  Tag : Int
  -- the Go field is named `Type`, a keyword in Lean
  Typ : String
  Values : List (String × String)
  ValuesWrapper : List (String × String)
deriving DecidableEq, Repr

/-- One `<message>` element: name, msgtype, and its `<field>` references
as (name, required) pairs. -/
structure RawMessage where
  Name : String
  MsgType : String
  Fields : List (String × String)
deriving DecidableEq, Repr

/-- One `<group>` element: the counting tag and the member tags. -/
structure RawGroup where
  NumInGroup : Int
  Tags : List Int
deriving DecidableEq, Repr

/-- The decoded `rawFix` document. -/
structure RawFix where
  Fields : List RawField
  Messages : List RawMessage
  Groups : List RawGroup
deriving DecidableEq, Repr

/-- The fresh `FixTagLookup` allocated by `parseDictionary` (all maps
empty). -/
def emptyLookup : FixTagLookup := ⟨[], [], [], [], [], [], []⟩

/-- The per-field enum map built inside `parseFields`: Go map assignments
over the direct `<value>` children first, then the wrapper children, so a
later identical enum code overwrites an earlier description. -/
def enumMapOfField (f : RawField) : List (String × String) :=
  (f.Values ++ f.ValuesWrapper).foldl (fun m v => assocUpd v.1 v.2 m) []

/-- `parseFields`: record name, type, and the (non-empty) enum map of
every field. -/
def parseFields (raw : RawFix) (d : FixTagLookup) : FixTagLookup :=
  raw.Fields.foldl
    (fun d f =>
      let em := enumMapOfField f
      { d with
        tagToName := assocUpd f.Tag f.Name d.tagToName
        fieldTypes := assocUpd f.Tag f.Typ d.fieldTypes
        enumMap := if em.length > 0 then assocUpd f.Tag em d.enumMap else d.enumMap })
    d

/-- `resolveTagByName`: the first tag in the name map bound to `name`,
`-1` if none.  (Go iterates the map in unspecified order; the dictionaries
concerned bind each name to one tag, so the choice of order is
immaterial.) -/
def resolveTagByName (name : String) (tagToName : List (Int × String)) : Int :=
  match tagToName.find? (fun p => p.2 = name) with
  | some p => p.1
  | none => -1

/-- `extractMessageFields`: resolve each field-name reference; an
unresolvable reference is skipped, a resolvable one is appended to the
field order, and additionally to the required list when flagged "Y". -/
def extractMessageFields (msgFields : List (String × String)) (d : FixTagLookup) :
    List Int × List Int :=
  match msgFields with
  | [] => ([], [])
  | (name, req) :: rest =>
    let tail := extractMessageFields rest d
    let tag := resolveTagByName name d.tagToName
    if tag ≠ -1 then
      (tag :: tail.1, if req = "Y" then tag :: tail.2 else tail.2)
    else tail

/-- `addMsgTypeEnumDescription`: inject (msgtype → message name) into the
enum map of tag 35, creating it when absent. -/
def addMsgTypeEnumDescription (msgTypeTag : Int) (msgType name : String)
    (d : FixTagLookup) : FixTagLookup :=
  let m := (assocFind msgTypeTag d.enumMap).getD []
  { d with enumMap := assocUpd msgTypeTag (assocUpd msgType name m) d.enumMap }

/-- `parseMessages`: one `MessageDef` per declared message, keyed by
msgtype, plus the tag-35 enum injection. -/
def parseMessages (raw : RawFix) (d : FixTagLookup) : FixTagLookup :=
  raw.Messages.foldl
    (fun d msg =>
      let fo := extractMessageFields msg.Fields d
      let d :=
        { d with
          Messages := assocUpd msg.MsgType
            ⟨msg.Name, msg.MsgType, fo.1, fo.2⟩ d.Messages }
      addMsgTypeEnumDescription 35 msg.MsgType msg.Name d)
    d

/-- `parseGroups`: populate the three group maps. -/
def parseGroups (raw : RawFix) (d : FixTagLookup) : FixTagLookup :=
  raw.Groups.foldl
    (fun d g =>
      { d with
        groupCounts := assocUpd g.NumInGroup true d.groupCounts
        groupOwners := g.Tags.foldl (fun m tag => assocUpd tag g.NumInGroup m) d.groupOwners
        groupDefs := assocUpd g.NumInGroup ⟨g.NumInGroup, g.Tags⟩ d.groupDefs })
    d

/-- `parseDictionary` after a successful XML decode: the three passes over
the decoded document, starting from the fresh lookup. -/
def buildLookup (raw : RawFix) : FixTagLookup :=
  parseGroups raw (parseMessages raw (parseFields raw emptyLookup))

/-! ## Version detection (`getTagValue`, `detectSchemaKey`) -/

/-- The segment scan of `getTagValue`: skip empty segments and segments
without `'='`; return the value of the first segment whose tag token
equals `tag`. -/
def getTagValueParts (tag : List Char) : List (List Char) → Option (List Char)
  | [] => none
  | p :: rest =>
    if p = [] then getTagValueParts tag rest
    else
      match splitEq p with
      | some kv => if kv.1 = tag then some kv.2 else getTagValueParts tag rest
      | none => getTagValueParts tag rest

/-- `getTagValue(msg, tag)`: pull the value for a given FIX tag out of
the message (`none` models `ok == false`). -/
def getTagValue (msg : List Char) (tag : List Char) : Option (List Char) :=
  getTagValueParts tag (splitOnChar SOH msg)

/-- `detectSchemaKey`: default `FIX44` without a BeginString; the fixed
ApplVerID table behind the `FIXT.1.1` wrapper (the Go `appl, _ :=` leaves
`appl` as the zero value `""` when tag 1128 is missing); classic
begin-strings with their dots removed (`strings.ReplaceAll(begin, ".", "")`). -/
def detectSchemaKey (msg : List Char) : String :=
  match getTagValue msg "8".data with
  | none => "FIX44"
  | some beginStr =>
    if beginStr = "FIXT.1.1".data then
      let appl := (getTagValue msg "1128".data).getD []
      if appl = "0".data then "FIX27"
      else if appl = "1".data then "FIX30"
      else if appl = "2".data then "FIX40"
      else if appl = "3".data then "FIX41"
      else if appl = "4".data then "FIX42"
      else if appl = "5".data then "FIX43"
      else if appl = "6".data then "FIX44"
      else if appl = "7".data then "FIX50"
      else if appl = "8".data then "FIX50SP1"
      else if appl = "9".data then "FIX50SP2"
      else "FIX50"
    else String.mk (beginStr.filter (fun c => c ≠ '.'))

/-! ## Merge (`mergeLookups`)

The Go function mutates `dst` in place; here it returns the updated
value.  The `nil` pointer guard has no counterpart on values.  Go
iterates the maps of `src` in unspecified order; both loops are add-if-absent,
whose resulting lookup function is iteration-order independent, and the
association list is iterated in order. -/

/-- An add-if-absent loop (`if _, exists := m[k]; !exists { m[k] = v }`
over every pair): the body of both `mergeLookups` loops. -/
def addIfAbsentList {α β : Type} [DecidableEq α] (pairs m : List (α × β)) :
    List (α × β) :=
  pairs.foldl
    (fun m p => if (assocFind p.1 m).isSome then m else assocUpd p.1 p.2 m) m

/-- One iteration of the enum-map loop of `mergeLookups`: ensure a
(possibly empty) inner map exists for the tag, then add the absent
values. -/
def mergeEnumStep (m : List (Int × List (String × String)))
    (p : Int × List (String × String)) : List (Int × List (String × String)) :=
  assocUpd p.1 (addIfAbsentList p.2 ((assocFind p.1 m).getD [])) m

/-- The enum-map loop of `mergeLookups` over all of the source entries. -/
def mergeEnumMaps (dstE srcE : List (Int × List (String × String))) :
    List (Int × List (String × String)) :=
  srcE.foldl mergeEnumStep dstE

/-- `mergeLookups`: graft the tag names and enum entries of `src` into `dst`
without overwriting anything `dst` already has. -/
def mergeLookups (dst src : FixTagLookup) : FixTagLookup :=
  { dst with
    tagToName := addIfAbsentList src.tagToName dst.tagToName
    enumMap := mergeEnumMaps dst.enumMap src.enumMap }

/-! ## Dictionary cache (`dicts`, `dictMux`, `getDictionary`)

The cache is the only shared mutable state: a map from version key to a
`*FixTagLookup`.  Pointer identity and in-place mutation are modelled
with an explicit heap (`Nat` addresses); `parses` counts invocations of
`parseDictionary`.  `parseDictionary ∘ chooseEmbeddedXML` is abstracted
as a parameter `parseOf : String → Option FixTagLookup` indexed by the
embedded-XML ID, since the embedded dictionary texts live in generated
packages outside the core; the theorems quantify over it (or pick the
concrete values used by the repository tests). -/

/-- `schemaToXMLID`: schema key → embedded-XML ID. -/
def schemaToXMLID : List (String × String) :=
  [("FIX27", "40"), ("FIX30", "40"), ("FIX40", "40"), ("FIX41", "41"),
   ("FIX42", "42"), ("FIX43", "43"), ("FIX44", "44"), ("FIX50", "50"),
   ("FIX50SP1", "50SP1"), ("FIX50SP2", "50SP2"), ("FIXT11", "T11")]

/-- The mutable state of the loader: heap of `FixTagLookup` instances,
the next fresh address, the `dicts` cache (key → address), and the count
of `parseDictionary` invocations. -/
structure CacheState where
  heap : List (Nat × FixTagLookup)
  next : Nat
  dicts : List (String × Nat)
  parses : Nat
deriving DecidableEq, Repr

def initialCacheState : CacheState := ⟨[], 0, [], 0⟩

/-- The keys whose dictionaries additionally receive the FIXT11 session
tags (`key == "FIX50" || key == "FIX50SP1" || key == "FIX50SP2"`). -/
def needsT11Merge (key : String) : Bool :=
  key = "FIX50" || key = "FIX50SP1" || key = "FIX50SP2"

/-- The fast-path / parse / store portion of `getDictionary`, without the
FIXT11 merge step.  This is the whole of `getDictionary` for any key with
`needsT11Merge key = false` (lemma `getDictionary_no_merge`). -/
def getDictBase (parseOf : String → Option FixTagLookup) (key : String)
    (s : CacheState) : Option Nat × CacheState :=
  match assocFind key s.dicts with
  | some a => (some a, s)
  | none =>
    match assocFind key schemaToXMLID with
    | none => (none, s)
    | some xmlID =>
      match parseOf xmlID with
      | none => (none, { s with parses := s.parses + 1 })
      | some parsed =>
        let a := s.next
        (some a,
         { heap := assocUpd a parsed s.heap
           next := a + 1
           dicts := assocUpd key a s.dicts
           parses := s.parses + 1 })

/-- `getDictionary`: fast read path, else parse and store, then — for the
FIX5x keys — obtain FIXT11 through the same cache (a recursive call; as
`"FIXT11"` itself never triggers a merge, that call is `getDictBase`) and
merge its tags into the instance just stored, in place. -/
def getDictionary (parseOf : String → Option FixTagLookup) (key : String)
    (s : CacheState) : Option Nat × CacheState :=
  match assocFind key s.dicts with
  | some a => (some a, s)
  | none =>
    match assocFind key schemaToXMLID with
    | none => (none, s)
    | some xmlID =>
      match parseOf xmlID with
      | none => (none, { s with parses := s.parses + 1 })
      | some parsed =>
        let a := s.next
        let s1 : CacheState :=
          { heap := assocUpd a parsed s.heap
            next := a + 1
            dicts := assocUpd key a s.dicts
            parses := s.parses + 1 }
        if needsT11Merge key then
          match getDictBase parseOf "FIXT11" s1 with
          | (some a11, s2) =>
            match assocFind a s2.heap, assocFind a11 s2.heap with
            | some dA, some dT11 =>
              (some a, { s2 with heap := assocUpd a (mergeLookups dA dT11) s2.heap })
            | _, _ => (some a, s2)
          | (none, s2) => (some a, s2)
        else (some a, s1)

/-- `LoadDictionary`: detect the version key, and fall back to `FIX44`
when it resolves to no dictionary. -/
def LoadDictionary (parseOf : String → Option FixTagLookup) (msg : List Char)
    (s : CacheState) : Option Nat × CacheState :=
  match getDictionary parseOf (detectSchemaKey msg) s with
  | (some a, s') => (some a, s')
  | (none, s') => getDictionary parseOf "FIX44" s'

/-! ## Reference formulations and concrete sample inputs

`specOrderingByMax` transcribes the ordering pass as the specification
words it (running maximum); `specIdx`/`specOrderingByLast` transcribe
what the code actually does, in a different shape (direct recursion over
the fields, last-seen index), for the equivalence theorem.  The sample
values mirror the fixtures of the repository test suite. -/

/-- The ordering check as the specification describes it: track the
HIGHEST order index seen so far among tags in the order map, and flag
every later field whose index is below that running maximum.  Written
from the specification text, for comparison with `validateFieldOrdering`. -/
def specOrderingByMax (fields : List FieldValue) (expectedOrder : List Int) :
    List String :=
  let orderIndex := expectedOrder.enum.foldl (fun m p => assocUpd p.2 (p.1 : Int) m) []
  (fields.foldl
    (fun acc fv =>
      match assocFind fv.Tag orderIndex with
      | some idx =>
        (if idx < acc.2 then acc.1 ++ ["Tag " ++ toString fv.Tag ++ " out of order"] else acc.1,
         max acc.2 idx)
      | none => acc)
    (([] : List String), (-1 : Int))).1

/-- The order index a tag receives in the Go index map: the position of
its LAST occurrence in `expectedOrder` (later assignments overwrite). -/
def specIdx (expectedOrder : List Int) (t : Int) : Option Int :=
  ((expectedOrder.enum.map (fun p => (p.2, (p.1 : Int)))).reverse.find?
    (fun q => q.1 = t)).map (fun q => q.2)

/-- The ordering check the code implements, written as a direct recursion:
carry the index of the most recently seen field whose tag is in the order
map (initially `-1`, updated unconditionally, even after a flagged
field); flag a field whose index is below the carried index; fields
outside the order map leave the carried index untouched. -/
def specOrderingByLast (expectedOrder : List Int) : Int → List FieldValue → List String
  | _, [] => []
  | last, fv :: rest =>
    match specIdx expectedOrder fv.Tag with
    | some idx =>
      (if idx < last then ["Tag " ++ toString fv.Tag ++ " out of order"] else []) ++
        specOrderingByLast expectedOrder idx rest
    | none => specOrderingByLast expectedOrder last rest

/-- Presence of an enum entry (tag, value) in a nested enum map, as an
`Option` so presence and absence are distinguished (the Go code reads
`enumMap[tag][v]` with two comma-ok lookups). -/
def enumFind (m : List (Int × List (String × String))) (t : Int) (v : String) :
    Option String :=
  match assocFind t m with
  | some em => assocFind v em
  | none => none

/-- Presence of an enum entry (tag, value) in a lookup. -/
def enumEntry (d : FixTagLookup) (t : Int) (v : String) : Option String :=
  enumFind d.enumMap t v

/-- Cache well-formedness: every cached address was allocated (is below
the next-fresh-address counter). -/
def WFCache (s : CacheState) : Prop := ∀ p ∈ s.dicts, p.2 < s.next

/-- A dictionary resembling the FIX50 application dictionary: it has no
session-layer tag 1128. -/
def fix50Sample : FixTagLookup :=
  { emptyLookup with tagToName := [(8, "BeginString")] }

/-- A dictionary resembling the FIXT11 session dictionary: it carries
tag 1128 (ApplVerID), the fixture of `TestGetDictionaryWithT11Merge`. -/
def t11Sample : FixTagLookup :=
  { emptyLookup with tagToName := [(1128, "ApplVerID")] }

/-- A parse function serving the two sample dictionaries. -/
def sampleParseOf : String → Option FixTagLookup := fun xmlID =>
  if xmlID = "50" then some fix50Sample
  else if xmlID = "T11" then some t11Sample
  else none

/-- The dictionary fixture of `setupTestDictionary` in the validator
tests. -/
def validatorDict : FixTagLookup :=
  { emptyLookup with
    tagToName := [(8, "BeginString"), (9, "BodyLength"), (10, "CheckSum"),
                  (11, "ClOrdID"), (35, "MsgType"), (54, "Side")]
    fieldTypes := [(35, "STRING"), (11, "STRING"), (54, "CHAR")]
    enumMap := [(35, [("A", "Logon")]), (54, [("1", "Buy"), ("2", "Sell")])]
    Messages := [("A", ⟨"Logon", "A", [35, 11, 54], [35, 11, 54]⟩)] }

/-- A decoded document whose first field repeats an enum code and whose
second declares the same code directly and inside the wrapper. -/
def dupEnumRaw : RawFix :=
  ⟨[⟨"DupField", 1000, "", [("A", "Alpha"), ("A", "Alpha2")], []⟩,
    ⟨"WrapField", 1001, "", [("X", "Direct")], [("X", "Wrapped")]⟩],
   [], []⟩

/-- The decoded document behind
`TestExtractMessageFieldsRequiredFlagAppends`: three fields, one message
with one required and one optional reference. -/
def nosRaw : RawFix :=
  ⟨[⟨"ClOrdID", 11, "", [], []⟩, ⟨"Symbol", 55, "", [], []⟩,
    ⟨"NoSecurityAltID", 454, "", [], []⟩],
   [⟨"NewOrderSingle", "D", [("ClOrdID", "Y"), ("Symbol", "N")]⟩],
   []⟩

/-- A cache state in which the FIX50 sample dictionary is already stored
at address 0. -/
def cachedStateSample : CacheState :=
  ⟨[(0, fix50Sample)], 1, [("FIX50", 0)], 1⟩

/-- Merge fixtures of `TestMergeLookups`. -/
def mergeDst : FixTagLookup :=
  { emptyLookup with tagToName := [(1, "A")], enumMap := [(1, [("A", "Alpha")])] }

def mergeSrc : FixTagLookup :=
  { emptyLookup with tagToName := [(2, "B")], enumMap := [(2, [("B", "Beta")])] }

/-! ## Generic lemmas about the map embedding -/

theorem assocFind_foldl_upd {α β : Type} [DecidableEq α]
    (pairs : List (α × β)) (m : List (α × β)) (k : α) :
    assocFind k (pairs.foldl (fun m p => assocUpd p.1 p.2 m) m) =
      match pairs.reverse.find? (fun p => p.1 = k) with
      | some p => some p.2
      | none => assocFind k m := by
  induction pairs generalizing m with
  | nil => simp
  | cons p rest ih =>
    simp only [List.foldl_cons, List.reverse_cons]
    rw [ih, List.find?_append]
    rcases hfind : rest.reverse.find? (fun q => decide (q.1 = k)) with _ | q
    · rw [hfind]
      by_cases hpk : p.1 = k
      · simp [List.find?, hpk, assocFind_assocUpd]
      · simp [List.find?, hpk, assocFind_assocUpd_ne _ _ hpk]
    · rw [hfind]
      simp

theorem addIfAbsent_preserves {α β : Type} [DecidableEq α]
    (pairs : List (α × β)) (m : List (α × β)) (k : α) (v : β)
    (h : assocFind k m = some v) :
    assocFind k
      (pairs.foldl
        (fun m p => if (assocFind p.1 m).isSome then m else assocUpd p.1 p.2 m) m) =
      some v := by
  induction pairs generalizing m with
  | nil => exact h
  | cons p rest ih =>
    simp only [List.foldl_cons]
    apply ih
    by_cases hs : (assocFind p.1 m).isSome
    · simpa [hs] using h
    · have hpk : p.1 ≠ k := by
        intro he
        apply hs
        rw [he, h]
        rfl
      simpa [hs, assocFind_assocUpd_ne _ _ hpk] using h

theorem addIfAbsent_adds {α β : Type} [DecidableEq α]
    (pairs : List (α × β)) (m : List (α × β)) (k : α) (v : β)
    (hm : assocFind k m = none) (hp : assocFind k pairs = some v) :
    assocFind k
      (pairs.foldl
        (fun m p => if (assocFind p.1 m).isSome then m else assocUpd p.1 p.2 m) m) =
      some v := by
  induction pairs generalizing m with
  | nil => simp [assocFind] at hp
  | cons p rest ih =>
    simp only [List.foldl_cons]
    by_cases hpk : p.1 = k
    · have hveq : p.2 = v := by
        unfold assocFind at hp; rw [if_pos hpk] at hp; exact Option.some.inj hp
      have hs : assocFind p.1 m = none := by rw [hpk]; exact hm
      rw [hs]
      simp only [Option.isSome_none, Bool.false_eq_true, if_false]
      apply addIfAbsent_preserves
      rw [hpk, hveq]
      exact assocFind_assocUpd_self k v m
    · have hp' : assocFind k rest = some v := by
        unfold assocFind at hp; rwa [if_neg hpk] at hp
      apply ih _ _ hp'
      by_cases hs : (assocFind p.1 m).isSome
      · simpa [hs] using hm
      · simpa [hs, assocFind_assocUpd_ne _ _ hpk] using hm

theorem assocFind_mem {α β : Type} [DecidableEq α]
    {k : α} {v : β} {m : List (α × β)} (h : assocFind k m = some v) :
    (k, v) ∈ m := by
  induction m with
  | nil => simp [assocFind] at h
  | cons p rest ih =>
    unfold assocFind at h
    by_cases hpk : p.1 = k
    · obtain ⟨a, b⟩ := p
      have ha : a = k := hpk
      rw [if_pos hpk] at h
      have hb : b = v := Option.some.inj h
      subst ha
      subst hb
      exact List.mem_cons_self _ _
    · obtain ⟨a, b⟩ := p
      rw [if_neg hpk] at h
      exact List.mem_cons_of_mem _ (ih h)

/-! ## C1: the ordering pass -/

theorem assocFind_orderIndex (expectedOrder : List Int) (t : Int) :
    assocFind t (expectedOrder.enum.foldl (fun m p => assocUpd p.2 (p.1 : Int) m) []) =
      specIdx expectedOrder t := by
  have hmap :
      expectedOrder.enum.foldl (fun m p => assocUpd p.2 (p.1 : Int) m)
          ([] : List (Int × Int)) =
        (expectedOrder.enum.map (fun p => (p.2, (p.1 : Int)))).foldl
          (fun m q => assocUpd q.1 q.2 m) [] := by
    rw [List.foldl_map]
  rw [hmap, assocFind_foldl_upd]
  unfold specIdx
  rcases h : (expectedOrder.enum.map (fun p => (p.2, (p.1 : Int)))).reverse.find?
      (fun q => q.1 = t) with _ | q <;> simp [h, assocFind]

theorem ordering_foldl_aux (expectedOrder : List Int) (oi : List (Int × Int))
    (hoi : ∀ t, assocFind t oi = specIdx expectedOrder t) :
    ∀ (fields : List FieldValue) (errs : List String) (last : Int),
      (fields.foldl
        (fun acc fv =>
          match assocFind fv.Tag oi with
          | some idx =>
            (if idx < acc.2 then acc.1 ++ ["Tag " ++ toString fv.Tag ++ " out of order"]
             else acc.1,
             idx)
          | none => acc)
        (errs, last)).1 = errs ++ specOrderingByLast expectedOrder last fields := by
  intro fields
  induction fields with
  | nil => intro errs last; simp [specOrderingByLast]
  | cons fv rest ih =>
    intro errs last
    simp only [List.foldl_cons, hoi fv.Tag]
    rcases hj : specIdx expectedOrder fv.Tag with _ | idx
    · simpa [specOrderingByLast, hj] using ih errs last
    · by_cases hlt : idx < last <;>
        simp [specOrderingByLast, hj, hlt, ih, List.append_assoc]

/-- C1 is refuted: `validateFieldOrdering` updates its tracked index
unconditionally (`lastIdx = idx`), so it carries the LAST seen index, not
the running maximum the claim describes.  With FieldOrder `[1, 2, 3]` and
arrival order `3, 1, 2`, the field with tag `2` has order index `1`,
which is below the running maximum `2` established by tag `3`, so the
claim demands findings for both tags `1` and `2`; the code flags only
tag `1`, because after flagging it the tracked index drops to `0`. -/
theorem ordering_not_running_max :
    validateFieldOrdering [⟨3, "c"⟩, ⟨1, "a"⟩, ⟨2, "b"⟩] [1, 2, 3] =
        ["Tag 1 out of order"] ∧
    specOrderingByMax [⟨3, "c"⟩, ⟨1, "a"⟩, ⟨2, "b"⟩] [1, 2, 3] =
        ["Tag 1 out of order", "Tag 2 out of order"] := by decide

/-- C1 (amended): the ordering check walks the parsed fields in arrival
order carrying the order index of the MOST RECENTLY seen field whose tag
is in FieldOrder (a tag receives the position of its last occurrence
there); a field whose index is lower than the carried index is flagged
out of order, and the carried index is then updated to that lower index;
fields whose tags are not in FieldOrder neither advance nor reset it. -/
theorem ordering_tracks_last_index (fields : List FieldValue) (expectedOrder : List Int) :
    validateFieldOrdering fields expectedOrder =
      specOrderingByLast expectedOrder (-1) fields := by
  simpa using
    ordering_foldl_aux expectedOrder _ (assocFind_orderIndex expectedOrder) fields [] (-1)

/-! ## C9: tags accepted by the parser -/

theorem parseParts_eq_filterMap (parts : List (List Char)) :
    parseParts parts = parts.filterMap segParse := by
  induction parts with
  | nil => rfl
  | cons p rest ih =>
    cases h : segParse p <;> simp [parseParts, h, ih]

/-- C9 is refuted: `strconv.Atoi` accepts a leading sign, so the segment
`-5=x`, whose tag token is not a non-negative integer, is NOT discarded:
the parser emits a field with the negative tag `-5`. -/
theorem parser_accepts_negative_tag :
    ParseFix "-5=x\x01".data = [⟨-5, "x"⟩] ∧ (-5 : Int) < 0 := by decide

/-- C9 (amended): every emitted field comes from a segment whose tag
token `Atoi` parses as a (possibly signed) base-10 integer, and the
output is exactly the in-order sequence of segments surviving the three
guards (non-empty, contains a key delimiter, integer tag token) —
segments with non-integer tag tokens are silently discarded, but signed
tokens are integers, so negative tags can appear. -/
theorem parser_tag_characterization (msg : List Char) :
    ParseFix msg =
      (if msg.contains SOH then (splitOnChar SOH msg).filterMap segParse else []) ∧
    ∀ fv ∈ ParseFix msg, ∃ p ∈ splitOnChar SOH msg, ∃ kv : List Char × List Char,
      splitEq p = some kv ∧ goAtoi kv.1 = some fv.Tag ∧ fv.Value = String.mk kv.2 := by
  constructor
  · unfold ParseFix
    split <;> simp [parseParts_eq_filterMap]
  · intro fv hfv
    unfold ParseFix at hfv
    split at hfv
    · rw [parseParts_eq_filterMap] at hfv
      obtain ⟨p, hp, hps⟩ := List.mem_filterMap.mp hfv
      refine ⟨p, hp, ?_⟩
      unfold segParse at hps
      split at hps
      · cases hps
      · split at hps
        · cases hps
        · rename_i k0 v0 hsp
          split at hps
          · cases hps
          · rename_i t hat
            have hfveq : fv = ⟨t, String.mk v0⟩ := (Option.some.inj hps).symm
            subst hfveq
            exact ⟨(k0, v0), hsp, hat, rfl⟩
    · cases hfv

theorem parser_tag_characterization_witness :
    (⟨35, "A"⟩ : FieldValue) ∈ ParseFix "35=A\x01".data ∧
    ∃ p ∈ splitOnChar SOH "35=A\x01".data, ∃ kv : List Char × List Char,
      splitEq p = some kv ∧ goAtoi kv.1 = some ((35 : Int)) ∧ "A" = String.mk kv.2 :=
  ⟨by decide, by
    simpa using (parser_tag_characterization "35=A\x01".data).2 ⟨35, "A"⟩ (by decide)⟩

/-! ## C4: message-type resolution short-circuits -/

theorem buildFieldMap_none_aux (t : Int) (fields : List FieldValue) :
    ∀ acc : List (Int × String) × List (Int × Bool),
      (∀ fv ∈ fields, fv.Tag ≠ t) → assocFind t acc.1 = none →
      assocFind t
        ((fields.foldl
          (fun acc fv => (assocUpd fv.Tag fv.Value acc.1, assocUpd fv.Tag true acc.2))
          acc).1) = none := by
  induction fields with
  | nil => intro acc _ h; exact h
  | cons fv rest ih =>
    intro acc hall h
    simp only [List.foldl_cons]
    refine ih _ (fun x hx => hall x (List.mem_cons_of_mem _ hx)) ?_
    show assocFind t (assocUpd fv.Tag fv.Value acc.1) = none
    rw [assocFind_assocUpd_ne _ _ (hall fv (List.mem_cons_self _ _))]
    exact h

/-- C4: a message whose parsed fields contain no occurrence of tag 35
yields exactly the single finding `Missing required tag 35 (MsgType)` and
no further checks run; a present but unrecognized message-type value
yields exactly the single finding `Unknown MsgType: v` and likewise
aborts the remaining validation. -/
theorem msgtype_resolution_short_circuits (msg : List Char) (dict : FixTagLookup) :
    ((∀ fv ∈ ParseFix msg, fv.Tag ≠ 35) →
      ValidateFixMessage msg dict = ["Missing required tag 35 (MsgType)"]) ∧
    (∀ v, assocFind 35 (buildFieldMap (ParseFix msg)).1 = some v →
      assocFind v dict.Messages = none →
      ValidateFixMessage msg dict = ["Unknown MsgType: " ++ v]) := by
  constructor
  · intro h
    have h35 : assocFind 35 (buildFieldMap (ParseFix msg)).1 = none := by
      unfold buildFieldMap
      exact buildFieldMap_none_aux 35 (ParseFix msg) ([], []) h rfl
    simp [ValidateFixMessage, validateMsgType, h35]
  · intro v hv hnone
    simp [ValidateFixMessage, validateMsgType, hv, hnone]

theorem msgtype_resolution_short_circuits_witness :
    ValidateFixMessage "8=FIX.4.4\x019=23\x0111=ORDER123\x0154=1\x0110=229\x01".data
        validatorDict = ["Missing required tag 35 (MsgType)"] ∧
    ValidateFixMessage "35=Z\x0110=229\x01".data validatorDict =
        ["Unknown MsgType: Z"] :=
  ⟨(msgtype_resolution_short_circuits _ validatorDict).1 (by decide),
   (msgtype_resolution_short_circuits _ validatorDict).2 "Z" (by decide) (by decide)⟩

/-! ## C7: checksum validation -/

/-- C7: with tag 10 present among the parsed fields and the checksum
marker `⟨SOH⟩10=` occurring at position `i`, the validator compares the
supplied value against the byte sum of the message prefix up to and
including the SOH immediately preceding the checksum field, modulo 256,
rendered as a 3-digit zero-padded decimal, and on mismatch emits exactly
`Checksum mismatch: got s, expected e`; with tag 10 absent it emits
exactly `Missing required checksum tag 10`. -/
theorem checksum_validation (msg : List Char) :
    (assocFind 10 (buildFieldMap (ParseFix msg)).1 = none →
      validateChecksumField msg (buildFieldMap (ParseFix msg)).1 =
        ["Missing required checksum tag 10"]) ∧
    (∀ v i, assocFind 10 (buildFieldMap (ParseFix msg)).1 = some v →
      findSubstr [SOH, '1', '0', '='] msg = some i →
      validateChecksumField msg (buildFieldMap (ParseFix msg)).1 =
        (if v = goFmt03d ((sumBytes (msg.take (i + 1)) % 256 : Nat) : Int) then []
         else ["Checksum mismatch: got " ++ v ++ ", expected " ++
               goFmt03d ((sumBytes (msg.take (i + 1)) % 256 : Nat) : Int)])) := by
  constructor
  · intro h
    simp [validateChecksumField, h]
  · intro v i hv hi
    have hcs : CalculateChecksum msg = ((sumBytes (msg.take (i + 1)) % 256 : Nat) : Int) := by
      have h1 : CalculateChecksum msg = (sumBytes (msg.take (i + 1)) : Int) % 256 := by
        unfold CalculateChecksum
        rw [hi]
      rw [h1]
      omega
    simp [validateChecksumField, hv, hcs]

theorem checksum_validation_witness :
    validateChecksumField "8=FIX.4.4\x019=12\x0135=A\x0110=099\x01".data
        (buildFieldMap (ParseFix "8=FIX.4.4\x019=12\x0135=A\x0110=099\x01".data)).1 =
      ["Checksum mismatch: got 099, expected 226"] ∧
    validateChecksumField "8=FIX.4.4\x019=12\x0135=A\x01".data
        (buildFieldMap (ParseFix "8=FIX.4.4\x019=12\x0135=A\x01".data)).1 =
      ["Missing required checksum tag 10"] := by
  constructor
  · have h := (checksum_validation "8=FIX.4.4\x019=12\x0135=A\x0110=099\x01".data).2
      "099" 19 (by decide) (by decide)
    rw [h]
    decide
  · exact (checksum_validation _).1 (by decide)

/-! ## C3: enum maps of a field -/

/-- C3 is refuted: the per-field enum map is built with Go map
assignments, so a LATER occurrence of an identical enum code DOES
overwrite the earlier description — both for a repeated code among the
direct value children and for a wrapper value repeating a direct one. -/
theorem enum_code_overwrites :
    (buildLookup dupEnumRaw).GetEnumDescription 1000 "A" = "Alpha2" ∧
    (buildLookup dupEnumRaw).GetEnumDescription 1000 "A" ≠ "Alpha" ∧
    (buildLookup dupEnumRaw).GetEnumDescription 1001 "X" = "Wrapped" ∧
    (buildLookup dupEnumRaw).GetEnumDescription 1001 "X" ≠ "Direct" := by decide

/-- C3 (amended): for every field, the enum values found as direct child
value elements and those found inside the wrapper element are merged into
one enum map for that tag (direct values first, then wrapper values), and
a later occurrence of an enum code identical to an earlier one within the
same field OVERWRITES the earlier description: each code is bound to the
description of its last occurrence. -/
theorem enum_map_last_occurrence_wins (f : RawField) (code : String) :
    assocFind code (enumMapOfField f) =
      ((f.Values ++ f.ValuesWrapper).reverse.find? (fun v => v.1 = code)).map
        (fun v => v.2) := by
  unfold enumMapOfField
  rw [assocFind_foldl_upd]
  rcases hfind : (f.Values ++ f.ValuesWrapper).reverse.find? (fun v => v.1 = code)
      with _ | v
  · rw [hfind]
    rfl
  · rw [hfind]
    rfl

/-! ## C5: version detection -/

/-- C5: with the begin-string tag absent the key is `FIX44`; behind the
`FIXT.1.1` wrapper the application-version-id selects the key from the
fixed table (`0`–`9` naming the versions, in particular `6` giving
`FIX44`, and every other code falling to `FIX50`); any classic
begin-string becomes a key by dropping its dots. -/
theorem version_detection (msg : List Char) :
    (getTagValue msg "8".data = none → detectSchemaKey msg = "FIX44") ∧
    (∀ appl, getTagValue msg "8".data = some "FIXT.1.1".data →
      getTagValue msg "1128".data = some appl →
      detectSchemaKey msg =
        (if appl = "0".data then "FIX27"
         else if appl = "1".data then "FIX30"
         else if appl = "2".data then "FIX40"
         else if appl = "3".data then "FIX41"
         else if appl = "4".data then "FIX42"
         else if appl = "5".data then "FIX43"
         else if appl = "6".data then "FIX44"
         else if appl = "7".data then "FIX50"
         else if appl = "8".data then "FIX50SP1"
         else if appl = "9".data then "FIX50SP2"
         else "FIX50")) ∧
    (∀ b, getTagValue msg "8".data = some b → b ≠ "FIXT.1.1".data →
      detectSchemaKey msg = String.mk (b.filter (fun c => c ≠ '.'))) := by
  refine ⟨?_, ?_, ?_⟩
  · intro h
    simp [detectSchemaKey, h]
  · intro appl h8 h1128
    simp [detectSchemaKey, h8, h1128]
  · intro b h8 hne
    simp [detectSchemaKey, h8, hne]

theorem version_detection_witness :
    detectSchemaKey "".data = "FIX44" ∧
    detectSchemaKey "8=FIXT.1.1\x011128=6\x01".data = "FIX44" ∧
    detectSchemaKey "8=FIX.4.2\x01".data = "FIX42" := by
  refine ⟨(version_detection _).1 (by decide), ?_, ?_⟩
  · have h := (version_detection "8=FIXT.1.1\x011128=6\x01".data).2.1
      "6".data (by decide) (by decide)
    rw [h]
    decide
  · have h := (version_detection "8=FIX.4.2\x01".data).2.2
      "FIX.4.2".data (by decide) (by decide)
    rw [h]
    decide

/-! ## C6: the merge is additive -/

theorem assocFind_cons {α β : Type} [DecidableEq α] (k : α) (p : α × β)
    (l : List (α × β)) :
    assocFind k (p :: l) = if p.1 = k then some p.2 else assocFind k l := by
  obtain ⟨a, b⟩ := p
  rfl

theorem addIfAbsentList_preserves {α β : Type} [DecidableEq α]
    (pairs m : List (α × β)) (k : α) (v : β) (h : assocFind k m = some v) :
    assocFind k (addIfAbsentList pairs m) = some v :=
  addIfAbsent_preserves pairs m k v h

theorem addIfAbsentList_adds {α β : Type} [DecidableEq α]
    (pairs m : List (α × β)) (k : α) (v : β)
    (hm : assocFind k m = none) (hp : assocFind k pairs = some v) :
    assocFind k (addIfAbsentList pairs m) = some v :=
  addIfAbsent_adds pairs m k v hm hp

theorem mergeEnumMaps_cons (m : List (Int × List (String × String)))
    (p : Int × List (String × String)) (rest : List (Int × List (String × String))) :
    mergeEnumMaps m (p :: rest) = mergeEnumMaps (mergeEnumStep m p) rest := rfl

theorem enumFind_mergeEnumStep (m : List (Int × List (String × String)))
    (p : Int × List (String × String)) (t : Int) (v : String) :
    enumFind (mergeEnumStep m p) t v =
      if p.1 = t then assocFind v (addIfAbsentList p.2 ((assocFind t m).getD []))
      else enumFind m t v := by
  unfold mergeEnumStep enumFind
  by_cases hpt : p.1 = t
  · subst hpt
    rw [assocFind_assocUpd_self]
    simp
  · rw [assocFind_assocUpd_ne _ _ hpt]
    simp [hpt]

theorem mergeEnum_preserves (srcE : List (Int × List (String × String))) :
    ∀ (m : List (Int × List (String × String))) (t : Int) (v dsc : String),
      enumFind m t v = some dsc → enumFind (mergeEnumMaps m srcE) t v = some dsc := by
  induction srcE with
  | nil => intro m t v dsc h; exact h
  | cons p rest ih =>
    intro m t v dsc h
    rw [mergeEnumMaps_cons]
    apply ih
    rw [enumFind_mergeEnumStep]
    by_cases hpt : p.1 = t
    · rw [if_pos hpt]
      unfold enumFind at h
      rcases hm : assocFind t m with _ | em
      · rw [hm] at h; cases h
      · rw [hm] at h
        exact addIfAbsentList_preserves p.2 em v dsc h
    · rw [if_neg hpt]
      exact h

theorem mergeEnum_adds (srcE : List (Int × List (String × String))) :
    ∀ (m : List (Int × List (String × String))) (t : Int) (v dsc : String),
      enumFind m t v = none → enumFind srcE t v = some dsc →
      enumFind (mergeEnumMaps m srcE) t v = some dsc := by
  induction srcE with
  | nil =>
    intro m t v dsc _ hs
    unfold enumFind at hs
    simp [assocFind] at hs
  | cons p rest ih =>
    intro m t v dsc hm hs
    rw [mergeEnumMaps_cons]
    by_cases hpt : p.1 = t
    · have hsv : assocFind v p.2 = some dsc := by
        unfold enumFind at hs
        rw [assocFind_cons, if_pos hpt] at hs
        exact hs
      have hbase : assocFind v ((assocFind t m).getD []) = none := by
        unfold enumFind at hm
        rcases hm2 : assocFind t m with _ | em
        · simp [assocFind]
        · rw [hm2] at hm
          simpa using hm
      have hnew : enumFind (mergeEnumStep m p) t v = some dsc := by
        rw [enumFind_mergeEnumStep, if_pos hpt]
        exact addIfAbsentList_adds p.2 _ v dsc hbase hsv
      exact mergeEnum_preserves rest _ t v dsc hnew
    · have hs' : enumFind rest t v = some dsc := by
        unfold enumFind at hs ⊢
        rwa [assocFind_cons, if_neg hpt] at hs
      have hm' : enumFind (mergeEnumStep m p) t v = none := by
        rw [enumFind_mergeEnumStep, if_neg hpt]
        exact hm
      exact ih _ t v dsc hm' hs'

/-- C6: merging `src` into `dst` is additive — every tag name and enum
entry `dst` already has survives unchanged, and every tag name and enum
entry `src` has and `dst` lacks is added. -/
theorem merge_is_additive (dst src : FixTagLookup) :
    (∀ t n, assocFind t dst.tagToName = some n →
      assocFind t (mergeLookups dst src).tagToName = some n) ∧
    (∀ t n, assocFind t dst.tagToName = none → assocFind t src.tagToName = some n →
      assocFind t (mergeLookups dst src).tagToName = some n) ∧
    (∀ t v dsc, enumEntry dst t v = some dsc →
      enumEntry (mergeLookups dst src) t v = some dsc) ∧
    (∀ t v dsc, enumEntry dst t v = none → enumEntry src t v = some dsc →
      enumEntry (mergeLookups dst src) t v = some dsc) := by
  refine ⟨?_, ?_, ?_, ?_⟩
  · intro t n h
    exact addIfAbsentList_preserves _ _ t n h
  · intro t n hd hs
    exact addIfAbsentList_adds _ _ t n hd hs
  · intro t v dsc h
    exact mergeEnum_preserves src.enumMap dst.enumMap t v dsc h
  · intro t v dsc hd hs
    exact mergeEnum_adds src.enumMap dst.enumMap t v dsc hd hs

theorem merge_is_additive_witness :
    assocFind 1 (mergeLookups mergeDst mergeSrc).tagToName = some "A" ∧
    assocFind 2 (mergeLookups mergeDst mergeSrc).tagToName = some "B" ∧
    enumEntry (mergeLookups mergeDst mergeSrc) 1 "A" = some "Alpha" ∧
    enumEntry (mergeLookups mergeDst mergeSrc) 2 "B" = some "Beta" :=
  ⟨(merge_is_additive mergeDst mergeSrc).1 1 "A" (by decide),
   (merge_is_additive mergeDst mergeSrc).2.1 2 "B" (by decide) (by decide),
   (merge_is_additive mergeDst mergeSrc).2.2.1 1 "A" "Alpha" (by decide),
   (merge_is_additive mergeDst mergeSrc).2.2.2 2 "B" "Beta" (by decide) (by decide)⟩

/-! ## C10: required tags are a subset of the field order -/

theorem extractMessageFields_subset (msgFields : List (String × String))
    (d : FixTagLookup) :
    ∀ t ∈ (extractMessageFields msgFields d).2, t ∈ (extractMessageFields msgFields d).1 := by
  induction msgFields with
  | nil =>
    intro t ht
    simp [extractMessageFields] at ht
  | cons f rest ih =>
    obtain ⟨name, req⟩ := f
    intro t ht
    simp only [extractMessageFields] at ht ⊢
    by_cases htag : resolveTagByName name d.tagToName ≠ -1
    · simp only [if_pos htag] at ht ⊢
      by_cases hreq : req = "Y"
      · simp only [if_pos hreq] at ht
        rcases List.mem_cons.mp ht with rfl | ht'
        · exact List.mem_cons_self _ _
        · exact List.mem_cons_of_mem _ (ih t ht')
      · simp only [if_neg hreq] at ht
        exact List.mem_cons_of_mem _ (ih t ht)
    · simp only [if_neg htag] at ht ⊢
      exact ih t ht

theorem parseFields_Messages (raw : RawFix) (d : FixTagLookup) :
    (parseFields raw d).Messages = d.Messages := by
  unfold parseFields
  generalize raw.Fields = fs
  induction fs generalizing d with
  | nil => rfl
  | cons f rest ih =>
    simp only [List.foldl_cons]
    rw [ih]

theorem parseGroups_Messages (raw : RawFix) (d : FixTagLookup) :
    (parseGroups raw d).Messages = d.Messages := by
  unfold parseGroups
  generalize raw.Groups = gs
  induction gs generalizing d with
  | nil => rfl
  | cons g rest ih =>
    simp only [List.foldl_cons]
    rw [ih]

theorem parseMessages_fold_required_subset (ms : List RawMessage) :
    ∀ (d : FixTagLookup),
      (∀ mt md, assocFind mt d.Messages = some md → ∀ t ∈ md.Required, t ∈ md.FieldOrder) →
      ∀ mt md,
        assocFind mt
          ((ms.foldl
            (fun d msg =>
              let fo := extractMessageFields msg.Fields d
              let d :=
                { d with
                  Messages := assocUpd msg.MsgType
                    ⟨msg.Name, msg.MsgType, fo.1, fo.2⟩ d.Messages }
              addMsgTypeEnumDescription 35 msg.MsgType msg.Name d)
            d)).Messages = some md →
        ∀ t ∈ md.Required, t ∈ md.FieldOrder := by
  induction ms with
  | nil => intro d hd mt md h; exact hd mt md h
  | cons msg rest ih =>
    intro d hd mt md h
    simp only [List.foldl_cons] at h
    refine ih _ ?_ mt md h
    intro mt' md' hmd'
    have hmsgs :
        (addMsgTypeEnumDescription 35 msg.MsgType msg.Name
          { d with
            Messages := assocUpd msg.MsgType
              ⟨msg.Name, msg.MsgType, (extractMessageFields msg.Fields d).1,
               (extractMessageFields msg.Fields d).2⟩ d.Messages }).Messages =
          assocUpd msg.MsgType
            ⟨msg.Name, msg.MsgType, (extractMessageFields msg.Fields d).1,
             (extractMessageFields msg.Fields d).2⟩ d.Messages := rfl
    rw [hmsgs, assocFind_assocUpd] at hmd'
    by_cases hk : msg.MsgType = mt'
    · rw [if_pos hk] at hmd'
      rw [← Option.some.inj hmd']
      exact extractMessageFields_subset msg.Fields d
    · rw [if_neg hk] at hmd'
      exact hd mt' md' hmd'

/-- C10: every message definition stored by the dictionary builder has
its required-tag list contained in its field-order list — a tag enters
Required only when its (resolvable) reference also entered FieldOrder. -/
theorem required_subset_fieldorder (raw : RawFix) (mt : String) (md : MessageDef)
    (h : assocFind mt (buildLookup raw).Messages = some md) :
    ∀ t ∈ md.Required, t ∈ md.FieldOrder := by
  unfold buildLookup at h
  rw [parseGroups_Messages] at h
  unfold parseMessages at h
  refine parseMessages_fold_required_subset raw.Messages (parseFields raw emptyLookup)
    ?_ mt md h
  intro mt' md' hmd'
  rw [parseFields_Messages] at hmd'
  simp [assocFind, emptyLookup] at hmd'

theorem required_subset_fieldorder_witness :
    assocFind "D" (buildLookup nosRaw).Messages =
      some ⟨"NewOrderSingle", "D", [11, 55], [11]⟩ ∧
    (11 : Int) ∈ [(11 : Int), 55] :=
  ⟨by decide,
   required_subset_fieldorder nosRaw "D" ⟨"NewOrderSingle", "D", [11, 55], [11]⟩
     (by decide) 11 (by decide)⟩

/-! ## C8: cache idempotence -/

theorem getDictBase_dicts_other (parseOf : String → Option FixTagLookup)
    (key k : String) (s : CacheState) (h : key ≠ k) :
    assocFind k (((getDictBase parseOf key s).2).dicts) = assocFind k s.dicts := by
  unfold getDictBase
  rcases h1 : assocFind key s.dicts with _ | a1
  · rcases h2 : assocFind key schemaToXMLID with _ | xmlID
    · simp only [h1, h2]
    · rcases h3 : parseOf xmlID with _ | parsed
      · simp only [h1, h2, h3]
      · simp only [h1, h2, h3]
        exact assocFind_assocUpd_ne _ _ h
  · simp only [h1]

theorem getDictionary_some_cached (parseOf : String → Option FixTagLookup)
    (key : String) (s : CacheState) (a : Nat)
    (h : (getDictionary parseOf key s).1 = some a) :
    assocFind key (((getDictionary parseOf key s).2).dicts) = some a := by
  unfold getDictionary at h ⊢
  rcases h1 : assocFind key s.dicts with _ | a1
  · rcases h2 : assocFind key schemaToXMLID with _ | xmlID
    · simp only [h1, h2] at h
      exact Option.noConfusion h
    · rcases h3 : parseOf xmlID with _ | parsed
      · simp only [h1, h2, h3] at h
        exact Option.noConfusion h
      · simp only [h1, h2, h3] at h ⊢
        rcases h4 : needsT11Merge key with _ | _
        · simp only [h4, Bool.false_eq_true, if_false] at h ⊢
          have ha : s.next = a := Option.some.inj h
          rw [← ha]
          exact assocFind_assocUpd_self _ _ _
        · have hk11 : key ≠ "FIXT11" := by
            intro he
            rw [he] at h4
            exact absurd h4 (by decide)
          simp only [h4, if_true] at h ⊢
          rcases h5 : getDictBase parseOf "FIXT11"
              { heap := assocUpd s.next parsed s.heap
                next := s.next + 1
                dicts := assocUpd key s.next s.dicts
                parses := s.parses + 1 } with ⟨r5, s5⟩
          have hd5 : assocFind key s5.dicts =
              assocFind key (assocUpd key s.next s.dicts) := by
            have := getDictBase_dicts_other parseOf "FIXT11" key
              { heap := assocUpd s.next parsed s.heap
                next := s.next + 1
                dicts := assocUpd key s.next s.dicts
                parses := s.parses + 1 } (fun he => hk11 he.symm)
            rw [h5] at this
            exact this
          rcases r5 with _ | a11
          · simp only [h5] at h ⊢
            have ha : s.next = a := Option.some.inj h
            rw [← ha, hd5]
            exact assocFind_assocUpd_self _ _ _
          · simp only [h5] at h ⊢
            rcases h6 : assocFind s.next s5.heap with _ | dA
            · simp only [h6] at h ⊢
              have ha : s.next = a := Option.some.inj h
              rw [← ha, hd5]
              exact assocFind_assocUpd_self _ _ _
            · rcases h7 : assocFind a11 s5.heap with _ | dT11
              · simp only [h6, h7] at h ⊢
                have ha : s.next = a := Option.some.inj h
                rw [← ha, hd5]
                exact assocFind_assocUpd_self _ _ _
              · simp only [h6, h7] at h ⊢
                have ha : s.next = a := Option.some.inj h
                rw [← ha, hd5]
                exact assocFind_assocUpd_self _ _ _
  · simp only [h1] at h ⊢
    exact h

/-- C8: if a `getDictionary` call for a key returns an instance, a second
call with the same key returns the IDENTICAL stored instance (the same
heap address — Go pointer equality) and leaves the state untouched: it
takes the read path, parses nothing (the `parses` counter of the
unchanged state is unchanged), and performs no writes. -/
theorem cache_idempotent (parseOf : String → Option FixTagLookup)
    (key : String) (s : CacheState) (a : Nat)
    (h : (getDictionary parseOf key s).1 = some a) :
    getDictionary parseOf key ((getDictionary parseOf key s).2) =
      (some a, (getDictionary parseOf key s).2) := by
  have hc := getDictionary_some_cached parseOf key s a h
  set q := getDictionary parseOf key s with hq
  show getDictionary parseOf key q.2 = (some a, q.2)
  unfold getDictionary
  rw [hc]

theorem cache_idempotent_witness :
    getDictionary sampleParseOf "FIX50"
        ((getDictionary sampleParseOf "FIX50" initialCacheState).2) =
      (some 0, (getDictionary sampleParseOf "FIX50" initialCacheState).2) :=
  cache_idempotent sampleParseOf "FIX50" initialCacheState 0 (by decide)

/-! ## C2: mutation of stored instances -/

/-- C2 is refuted.  `getDictBase` on the same inputs computes exactly the
intermediate state of `getDictionary "FIX50"` at the moment the parsed
instance is written into the cache (the store step before the merge).
At that moment the instance stored at address 0 has no tag 1128; when the
same call returns, the instance at the same cached address carries
tag 1128 (ApplVerID), merged in from the FIXT11 dictionary AFTER the
store: a later step of the loader mutated the stored instance. -/
theorem cached_instance_mutated_within_creating_call :
    assocFind "FIX50" (((getDictBase sampleParseOf "FIX50" initialCacheState).2).dicts) =
      some 0 ∧
    (assocFind 0 (((getDictBase sampleParseOf "FIX50" initialCacheState).2).heap)).map
      (fun d => assocFind 1128 d.tagToName) = some none ∧
    assocFind "FIX50" (((getDictionary sampleParseOf "FIX50" initialCacheState).2).dicts) =
      some 0 ∧
    (assocFind 0 (((getDictionary sampleParseOf "FIX50" initialCacheState).2).heap)).map
      (fun d => assocFind 1128 d.tagToName) = some (some "ApplVerID") := by decide

theorem getDictBase_heap_preserves (parseOf : String → Option FixTagLookup)
    (key : String) (s : CacheState) (b : Nat) (hb : b ≠ s.next) :
    assocFind b (((getDictBase parseOf key s).2).heap) = assocFind b s.heap := by
  unfold getDictBase
  rcases h1 : assocFind key s.dicts with _ | a1
  · rcases h2 : assocFind key schemaToXMLID with _ | xmlID
    · simp only [h1, h2]
    · rcases h3 : parseOf xmlID with _ | parsed
      · simp only [h1, h2, h3]
      · simp only [h1, h2, h3]
        exact assocFind_assocUpd_ne _ _ (fun he => hb he.symm)
  · simp only [h1]

/-- C2 (amended): an instance that was already stored in the cache when a
`getDictionary` call begins is never mutated by that call — for any key
the call looks up and for any well-formed state; the only mutation of a
stored instance is the FIXT11 merge that `getDictionary` performs on a
FIX50/FIX50SP1/FIX50SP2 instance INSIDE the very call that parses and
stores it (the counterexample above), after which it is read-only. -/
theorem stored_instances_not_mutated_by_later_calls
    (parseOf : String → Option FixTagLookup) (lookedUp : String) (s : CacheState)
    (k : String) (a : Nat) (hwf : WFCache s) (hk : assocFind k s.dicts = some a) :
    assocFind a (((getDictionary parseOf lookedUp s).2).heap) = assocFind a s.heap := by
  have ha : a < s.next := hwf (k, a) (assocFind_mem hk)
  unfold getDictionary
  rcases h1 : assocFind lookedUp s.dicts with _ | a1
  · rcases h2 : assocFind lookedUp schemaToXMLID with _ | xmlID
    · simp only [h1, h2]
    · rcases h3 : parseOf xmlID with _ | parsed
      · simp only [h1, h2, h3]
      · simp only [h1, h2, h3]
        have hne : s.next ≠ a := by omega
        have hl1 : assocFind a (assocUpd s.next parsed s.heap) = assocFind a s.heap :=
          assocFind_assocUpd_ne _ _ hne
        rcases h4 : needsT11Merge lookedUp with _ | _
        · simp only [h4, Bool.false_eq_true, if_false]
          exact hl1
        · simp only [h4, if_true]
          rcases h5 : getDictBase parseOf "FIXT11"
              { heap := assocUpd s.next parsed s.heap
                next := s.next + 1
                dicts := assocUpd lookedUp s.next s.dicts
                parses := s.parses + 1 } with ⟨r5, s5⟩
          have hl2 : assocFind a s5.heap = assocFind a (assocUpd s.next parsed s.heap) := by
            have := getDictBase_heap_preserves parseOf "FIXT11"
              { heap := assocUpd s.next parsed s.heap
                next := s.next + 1
                dicts := assocUpd lookedUp s.next s.dicts
                parses := s.parses + 1 } a (by simp only []; omega)
            rw [h5] at this
            exact this
          rcases r5 with _ | a11
          · simp only [h5]
            rw [hl2]
            exact hl1
          · simp only [h5]
            rcases h6 : assocFind s.next s5.heap with _ | dA
            · simp only [h6]
              rw [hl2]
              exact hl1
            · rcases h7 : assocFind a11 s5.heap with _ | dT11
              · simp only [h6, h7]
                rw [hl2]
                exact hl1
              · simp only [h6, h7]
                rw [assocFind_assocUpd_ne _ _ hne, hl2]
                exact hl1
  · simp only [h1]

theorem stored_instances_not_mutated_witness :
    assocFind 0 (((getDictionary sampleParseOf "FIXT11" cachedStateSample).2).heap) =
      assocFind 0 cachedStateSample.heap :=
  stored_instances_not_mutated_by_later_calls sampleParseOf "FIXT11" cachedStateSample
    "FIX50" 0 (by unfold WFCache; decide) (by decide)

end Fixdecoder
